import Mathlib

/-!
Shallow embedding of `src/plugin/ts_helper.py` (vim-tree-sitter), a CLI shim
that loads a tree-sitter grammar, parses stdin and serializes one of four JSON
views (`ast`, `node_at`, `symbols`, `folds`) of the resulting syntax tree.

The external parsing library (tree_sitter) is modelled abstractly: syntax
nodes are trees whose fields may be absent (the Python code guards every
attribute access with `getattr`-defaults or `try`/`except`), and the outcomes
of external Python calls (module import, `language()`, `Language(...)`,
`Parser(...)`, `set_language`, `parse`, point lookup) are inputs to the
embedded functions, one constructor per observable outcome.

Machine integers do not overflow here (Python ints are unbounded; rows,
columns and byte offsets are nonnegative), so `Nat` is used for them and
`Int` for the parsed `node_at` arguments (Python `int()` accepts signs).
-/

namespace TsHelper

/-- Outcome of a Python call that either returns a value or raises. -/
inductive PyRes (α : Type) where
  | ok : α → PyRes α
  | exn : PyRes α
deriving DecidableEq, Repr

/- A syntax node as seen by `ts_helper.py`.  Every field the script reads is
an attribute of a foreign object and every read is guarded in the source
(`getattr(node, "type", None)`, `try: node.start_point ... except`), so each
field is an `Option`: `none` models the attribute being absent (the guarded
read raising / returning the default).  `children` is the ordered child list
(source order).  A `type` attribute, when present, is a string. -/
mutual
inductive Node : Type where
  | mk : Option String → Option Bool → Option (Nat × Nat) → Option (Nat × Nat) →
      Option Nat → Option Nat → NodeList → Node
inductive NodeList : Type where
  | nil : NodeList
  | cons : Node → NodeList → NodeList
end

def Node.type : Node → Option String
  | .mk t _ _ _ _ _ _ => t

def Node.is_named : Node → Option Bool
  | .mk _ nm _ _ _ _ _ => nm

def Node.start_point : Node → Option (Nat × Nat)
  | .mk _ _ sp _ _ _ _ => sp

def Node.end_point : Node → Option (Nat × Nat)
  | .mk _ _ _ ep _ _ _ => ep

def Node.start_byte : Node → Option Nat
  | .mk _ _ _ _ sb _ _ => sb

def Node.end_byte : Node → Option Nat
  | .mk _ _ _ _ _ eb _ => eb

def Node.children : Node → NodeList
  | .mk _ _ _ _ _ _ cs => cs

def NodeList.toList : NodeList → List Node
  | .nil => []
  | .cons n l => n :: l.toList

def NodeList.length : NodeList → Nat
  | .nil => 0
  | .cons _ l => l.length + 1

/- Pre-order listing of all nodes of a tree (the node set the `ast` command
renders, and the visitation order of `collect_symbols` / `collect_folds`). -/
mutual
def preorder : Node → List Node
  | .mk t nm sp ep sb eb cs => Node.mk t nm sp ep sb eb cs :: preorderList cs
def preorderList : NodeList → List Node
  | .nil => []
  | .cons c cs => preorder c ++ preorderList cs
end

/-- `source_bytes[a:b]` for nonnegative Python slice indices: the elements at
positions `a ≤ i < b`, clamped to the list, empty when `a ≥ b`. -/
def pySlice (l : List Nat) (a b : Nat) : List Nat :=
  (l.take b).drop a

/-- The U+FFFD replacement character emitted for invalid UTF-8 input. -/
def replChar : Char := Char.ofNat 0xFFFD

/-- Is `b` a UTF-8 continuation byte (`0x80..0xBF`)? -/
def isCont (b : Nat) : Bool := 0x80 ≤ b && b ≤ 0xBF

/-- Lower bound of the valid first-continuation range for a 3-byte lead. -/
def lo3 (b : Nat) : Nat := if b = 0xE0 then 0xA0 else 0x80

/-- Upper bound of the valid first-continuation range for a 3-byte lead
(`0xED` excludes surrogates). -/
def hi3 (b : Nat) : Nat := if b = 0xED then 0x9F else 0xBF

/-- Lower bound of the valid first-continuation range for a 4-byte lead. -/
def lo4 (b : Nat) : Nat := if b = 0xF0 then 0x90 else 0x80

/-- Upper bound of the valid first-continuation range for a 4-byte lead
(`0xF4` caps code points at U+10FFFF). -/
def hi4 (b : Nat) : Nat := if b = 0xF4 then 0x8F else 0xBF

/-- Decoder state: either between characters, or inside a multi-byte
sequence with the accumulated value, the number of continuation bytes still
needed, and the valid range for the next byte. -/
inductive Pend where
  | clear : Pend
  | need : Nat → Nat → Nat → Nat → Pend
deriving DecidableEq, Repr

/-- Effect of byte `b` arriving between characters: an ASCII byte yields its
character, a valid lead byte opens a multi-byte sequence, anything else
(`0x80..0xC1`, `0xF5..0xFF`) is one invalid byte, replaced. -/
def stepLead (b : Nat) : List Char × Pend :=
  if b < 0x80 then ([Char.ofNat b], .clear)
  else if 0xC2 ≤ b && b ≤ 0xDF then ([], .need (b - 0xC0) 1 0x80 0xBF)
  else if 0xE0 ≤ b && b ≤ 0xEF then ([], .need (b - 0xE0) 2 (lo3 b) (hi3 b))
  else if 0xF0 ≤ b && b ≤ 0xF4 then ([], .need (b - 0xF0) 3 (lo4 b) (hi4 b))
  else ([replChar], .clear)

/-- Effect of byte `b` in state `st`: a byte that is not a valid
continuation of a pending sequence replaces the pending maximal invalid
subpart with one U+FFFD and is then reconsidered as a fresh lead byte. -/
def stepState (st : Pend) (b : Nat) : List Char × Pend :=
  match st with
  | .clear => stepLead b
  | .need v k lo hi =>
    if lo ≤ b && b ≤ hi then
      if k = 1 then ([Char.ofNat (v * 0x40 + (b - 0x80))], .clear)
      else ([], .need (v * 0x40 + (b - 0x80)) (k - 1) 0x80 0xBF)
    else
      let s := stepLead b
      (replChar :: s.1, s.2)

/-- Run the decoder; a sequence still pending at end of input is one more
maximal invalid subpart, replaced. -/
def decodeAux : Pend → List Nat → List Char
  | .clear, [] => []
  | .need _ _ _ _, [] => [replChar]
  | st, b :: rest =>
    let s := stepState st b
    s.1 ++ decodeAux s.2 rest

/-- `bytes.decode("utf8", "replace")`: UTF-8 decoding where each maximal
invalid subpart is replaced by one U+FFFD, as CPython's replace error
handler does. -/
def decodeUtf8Replace (l : List Nat) : List Char :=
  decodeAux .clear l

/-- Python `str.isspace` restricted to the ASCII range (the characters
`str.split` splits on; non-ASCII Unicode whitespace is not modelled, no
claim depends on it). -/
def pyIsSpace (c : Char) : Bool :=
  c = ' ' || c = '\t' || c = '\n' || c = '\x0b' || c = '\x0c' || c = '\r'

/-- Helper for `pySplit`: `cur` is the current word, reversed. -/
def pySplitAux : List Char → List Char → List (List Char)
  | cur, [] => if cur.isEmpty then [] else [cur.reverse]
  | cur, c :: rest =>
    if pyIsSpace c then
      if cur.isEmpty then pySplitAux [] rest
      else cur.reverse :: pySplitAux [] rest
    else pySplitAux (c :: cur) rest

/-- Python `str.split()` with no argument: maximal runs of non-whitespace,
discarding leading/trailing/repeated whitespace (never yields empty words). -/
def pySplit (s : List Char) : List (List Char) :=
  pySplitAux [] s

/-- Python `" ".join(text.split())`: collapse every whitespace run to a
single space and strip the ends. -/
def normalizeWs (s : List Char) : List Char :=
  List.intercalate [' '] (pySplit s)

/-- Lines 102-103 of the source: `if len(text) > max_text: text =
text[:max_text - 3] + "..."`. -/
def truncateText (max_text : Nat) (t : List Char) : List Char :=
  if max_text < t.length then t.take (max_text - 3) ++ "...".toList else t

/-- The JSON object `node_to_dict` produces (minus the keys individual
commands add afterwards).  `text` is `none` when `include_text` is false. -/
structure NDict where
  type : Option String
  named : Bool
  start_point : Nat × Nat
  end_point : Nat × Nat
  start_byte : Nat
  end_byte : Nat
  text : Option (List Char)
deriving DecidableEq, Repr

/--
`node_to_dict(node, source_bytes, include_text, max_text)`.  The single
`try` around `node.start_point` / `node.end_point` succeeds only when both
attributes are present; otherwise all four coordinates default to 0.  Byte
offsets use `getattr(..., 0)`.  The `except` branch that would set
`d["text"] = ""` is unreachable here: Python list slicing, replace-mode
decoding and whitespace splitting never raise on the `int` offsets the dict
already holds, and the model makes them total functions.
-/
def node_to_dict (n : Node) (source_bytes : List Nat) (include_text : Bool)
    (max_text : Nat) : NDict :=
  let pts := match n.start_point, n.end_point with
    | some sp, some ep => (sp, ep)
    | _, _ => ((0, 0), (0, 0))
  let sb := n.start_byte.getD 0
  let eb := n.end_byte.getD 0
  { type := n.type
    named := (n.is_named).getD false
    start_point := pts.1
    end_point := pts.2
    start_byte := sb
    end_byte := eb
    text :=
      if include_text then
        some (truncateText max_text (normalizeWs (decodeUtf8Replace (pySlice source_bytes sb eb))))
      else none }

/- The nested JSON document the `ast` command prints: `node_to_dict` output
plus a `children` list of the same shape. -/
mutual
inductive AstDump : Type where
  | node : NDict → AstDumpList → AstDump
inductive AstDumpList : Type where
  | nil : AstDumpList
  | cons : AstDump → AstDumpList → AstDumpList
end

/- `walk_node(node, source_bytes)`: render the node with text and recurse
into `getattr(node, "children", [])` in order. -/
mutual
def walk_node (source_bytes : List Nat) : Node → AstDump
  | .mk t nm sp ep sb eb cs =>
    .node (node_to_dict (Node.mk t nm sp ep sb eb cs) source_bytes true 120)
      (walkChildren source_bytes cs)
def walkChildren (source_bytes : List Nat) : NodeList → AstDumpList
  | .nil => .nil
  | .cons c cs => .cons (walk_node source_bytes c) (walkChildren source_bytes cs)
end

/- The flat list of per-node dictionaries an `ast` document contains, in
pre-order: the "node set" of the `ast` output. -/
mutual
def astFlatten : AstDump → List NDict
  | .node d cs => d :: astFlattenList cs
def astFlattenList : AstDumpList → List NDict
  | .nil => []
  | .cons t ts => astFlatten t ++ astFlattenList ts
end

/-- Lines 35-39 of the source: the fixed, built-in symbol-type allow-list
(a Python `set`; membership is exact string equality, order irrelevant). -/
def DEFAULT_SYMBOL_NODE_TYPES : List String :=
  ["function_definition", "function_declaration", "function_item",
   "method_definition", "method_declaration", "class_declaration",
   "class_definition", "class_specifier", "function", "method"]

/-- `ntype in symbol_types` with `ntype = getattr(n, "type", None)`: a
missing `type` (`None`) is in no set of strings. -/
def symQual (n : Node) : Bool :=
  match n.type with
  | some t => DEFAULT_SYMBOL_NODE_TYPES.contains t
  | none => false

/- The `visit` closure of `collect_symbols`: append the node if its type
qualifies, then visit the children — a pre-order collection. -/
mutual
def symVisit : Node → List Node
  | .mk t nm sp ep sb eb cs =>
    (if symQual (Node.mk t nm sp ep sb eb cs) then [Node.mk t nm sp ep sb eb cs] else []) ++
      symVisitList cs
def symVisitList : NodeList → List Node
  | .nil => []
  | .cons c cs => symVisit c ++ symVisitList cs
end

/-- The sort key `lambda n: (n.start_point[0], n.start_point[1])`.  The
`getD` default is only a totalization device: every caller either checks
that `start_point` is present or only applies it to nodes that carry one. -/
def skey (n : Node) : Nat × Nat :=
  n.start_point.getD (0, 0)

/-- Ascending lexicographic comparison of `(start_row, start_column)` keys —
how Python compares the key tuples. -/
def keyLeB (a b : Nat × Nat) : Bool :=
  decide (a.1 < b.1) || (decide (a.1 = b.1) && decide (a.2 ≤ b.2))

/-- The sort relation on nodes: key of `a` ≤ key of `b`. -/
def nodeLe (a b : Node) : Prop :=
  keyLeB (skey a) (skey b) = true

instance : DecidableRel nodeLe :=
  fun a b => Bool.decEq (keyLeB (skey a) (skey b)) true

/--
`collect_symbols(root)` with the default allow-list: pre-order collection,
then `out.sort(key=...)`.  CPython's `list.sort` with a key function
computes the key of every element up front; an element whose `start_point`
attribute is missing makes that raise `AttributeError`, which no caller
catches — modelled as `none` (the invocation dies with no output).
Python's sort is a stable sort by the key, which determines its output
uniquely, so the stable `List.insertionSort` models it exactly.
-/
def collect_symbols (root : Node) : Option (List Node) :=
  let out := symVisit root
  if out.all (fun n => (n.start_point).isSome) then
    some (List.insertionSort nodeLe out)
  else none

/- The `visit` closure of `collect_folds`: the `try` reads
`n.start_point[0]` and `n.end_point[0]`; if either attribute is missing the
closure returns — skipping the node AND its entire subtree.  Otherwise the
node is appended when `ep > sp` and the children are visited. -/
mutual
def foldsVisit : Node → List Node
  | .mk t nm sp ep sb eb cs =>
    match sp, ep with
    | some s, some e =>
      (if e.1 > s.1 then [Node.mk t nm sp ep sb eb cs] else []) ++ foldsVisitList cs
    | _, _ => []
def foldsVisitList : NodeList → List Node
  | .nil => []
  | .cons c cs => foldsVisit c ++ foldsVisitList cs
end

/-- `collect_folds(root)`: pre-order collection of multi-line nodes, then
the same stable sort by `(start_row, start_column)` (every collected node
carries both points, so the key computation cannot raise here). -/
def collect_folds (root : Node) : List Node :=
  List.insertionSort nodeLe (foldsVisit root)

/-- One record of the `folds` JSON array (main, lines 258-265).  The point
accesses in the source are unguarded (`n.start_point[0]`, ...); they are
safe because `collect_folds` only emits nodes carrying both points, which
is also why the `getD` totalization is exact.  Byte offsets use
`getattr(..., 0)`. -/
structure FoldRec where
  type : Option String
  start_point : Nat × Nat
  end_point : Nat × Nat
  start_byte : Nat
  end_byte : Nat
deriving DecidableEq, Repr

def foldRecOf (n : Node) : FoldRec :=
  { type := n.type
    start_point := n.start_point.getD (0, 0)
    end_point := n.end_point.getD (0, 0)
    start_byte := n.start_byte.getD 0
    end_byte := n.end_byte.getD 0 }

/-- Python `needle in hay` on strings: contiguous-substring containment. -/
def strContains (needle hay : List Char) : Bool :=
  hay.tails.any (fun t => needle.isPrefixOf t)

/-- The child filter of the symbols name scan (main, line 239):
`'name' in ctype or 'identifier' in ctype or ctype == 'identifier'` with
`ctype = getattr(c, "type", "")`.  The third disjunct is subsumed by the
second but kept as in the source. -/
def isNameChild (c : Node) : Bool :=
  let ctype := (c.type.getD "").toList
  strContains "name".toList ctype || strContains "identifier".toList ctype ||
    ctype == "identifier".toList

/-- The `try` body of the name scan: slice `source_bytes` by the child's
unguarded `start_byte` / `end_byte` attributes, replace-decode, normalize.
It raises (`none`) exactly when one of the byte attributes is missing —
slicing and replace-decoding themselves never raise. -/
def extractChildText (source_bytes : List Nat) (c : Node) : Option (List Char) :=
  match c.start_byte, c.end_byte with
  | some sb, some eb => some (normalizeWs (decodeUtf8Replace (pySlice source_bytes sb eb)))
  | _, _ => none

/-- The name-scan loop of the symbols command (main, lines 236-245): walk
the direct children in order; on a type match try to extract the text and
`break` on success; on an extraction failure set `name = None` and KEEP
SCANNING the remaining children. -/
def firstName (source_bytes : List Nat) : List Node → Option (List Char)
  | [] => none
  | c :: cs =>
    if isNameChild c then
      match extractChildText source_bytes c with
      | some s => some s
      | none => firstName source_bytes cs
    else firstName source_bytes cs

/-- One record of the `symbols` JSON array: `node_to_dict` without text,
plus the extracted `name` (or `null`). -/
structure SymRec where
  type : Option String
  named : Bool
  start_point : Nat × Nat
  end_point : Nat × Nat
  start_byte : Nat
  end_byte : Nat
  name : Option (List Char)
deriving DecidableEq, Repr

def symRecOf (source_bytes : List Nat) (n : Node) : SymRec :=
  let d := node_to_dict n source_bytes false 120
  { type := d.type
    named := d.named
    start_point := d.start_point
    end_point := d.end_point
    start_byte := d.start_byte
    end_byte := d.end_byte
    name := firstName source_bytes n.children.toList }

/-- Digit-run value, `none` unless the (stripped, unsigned) text is one or
more ASCII digits. -/
def digitsVal : List Char → Option Nat
  | [] => none
  | ds =>
    if ds.all Char.isDigit then
      some (ds.foldl (fun a c => a * 10 + (c.toNat - 48)) 0)
    else none

/-- Strip leading and trailing whitespace. -/
def stripWs (s : List Char) : List Char :=
  ((s.dropWhile pyIsSpace).reverse.dropWhile pyIsSpace).reverse

/-- Python `int(s)` on the command's ROW/COL arguments: optional
whitespace, an optional sign, then decimal digits; `none` models
`ValueError`.  (Underscore digit grouping and non-ASCII digits, which
CPython also accepts, are not modelled; no claim distinguishes them.) -/
def pyInt (s : List Char) : Option Int :=
  match stripWs s with
  | '+' :: ds => (digitsVal ds).map (fun n => (n : Int))
  | '-' :: ds => (digitsVal ds).map (fun n => -(n : Int))
  | ds => (digitsVal ds).map (fun n => (n : Int))

/-- The four subcommands; `node_at` carries its raw positional arguments. -/
inductive Command where
  | ast : Command
  | node_at : List (List Char) → Command
  | symbols : Command
  | folds : Command

/-- The single JSON document a successful invocation prints. -/
inductive OutDoc : Type where
  | emptyObj : OutDoc
  | emptyArr : OutDoc
  | astOut : AstDump → OutDoc
  | nodeAtOut : NDict → Nat → OutDoc
  | symbolsOut : List SymRec → OutDoc
  | foldsOut : List FoldRec → OutDoc

/-- Observable outcome of one invocation: process exit code, the JSON
document on stdout (if any), the diagnostic line on stderr (if any; the
traceback text of an uncaught exception is not modelled, only that stdout
stays empty and the exit code is 1). -/
structure RunOut where
  exitCode : Nat
  stdout : Option OutDoc
  stderr : Option (List Char)

def nodeAtUsageMsg : List Char := "node_at requires ROW COL\n".toList

def nodeAtInvalidMsg : List Char := "Invalid ROW/COL\n".toList

/-- Does a diagnostic consist of exactly one line (one newline, at the
end)? -/
def oneLine (s : List Char) : Bool :=
  s.count '\n' == 1 && s.getLast? == some '\n'

/--
The command dispatch of `main` (lines 199-268), after language loading,
parser construction and tree acquisition.  `root` is the acquired root
(`None` — absent — or a node; a foreign node object defines no `__bool__`,
so `if not root` is exactly `root is None` here).  `lookup` is the external
`root.named_descendant_for_point_range((row, col), (row, col))`, already
`try`-wrapped by `find_smallest_named_at` into an `Option`.
-/
def runMain (cmd : Command) (root : Option Node) (source_bytes : List Nat)
    (lookup : Int → Int → Option Node) : RunOut :=
  match cmd with
  | .ast =>
    match root with
    | none => ⟨0, some .emptyObj, none⟩
    | some r => ⟨0, some (.astOut (walk_node source_bytes r)), none⟩
  | .node_at argv =>
    match argv with
    | a0 :: a1 :: _ =>
      match pyInt a0 with
      | none => ⟨8, none, some nodeAtInvalidMsg⟩
      | some row =>
        match pyInt a1 with
        | none => ⟨8, none, some nodeAtInvalidMsg⟩
        | some col =>
          match root with
          | none => ⟨0, some .emptyObj, none⟩
          | some _ =>
            match lookup row col with
            | none => ⟨0, some .emptyObj, none⟩
            | some nd =>
              ⟨0, some (.nodeAtOut (node_to_dict nd source_bytes true 120)
                nd.children.length), none⟩
    | _ => ⟨7, none, some nodeAtUsageMsg⟩
  | .symbols =>
    match root with
    | none => ⟨0, some .emptyArr, none⟩
    | some r =>
      match collect_symbols r with
      | none => ⟨1, none, none⟩
      | some syms => ⟨0, some (.symbolsOut (syms.map (symRecOf source_bytes))), none⟩
  | .folds =>
    match root with
    | none => ⟨0, some .emptyArr, none⟩
    | some r => ⟨0, some (.foldsOut ((collect_folds r).map foldRecOf)), none⟩

/--
Modelled from the spec: the Tree Acquirer.  The `parser.parse(source_bytes)`
call and its `root_node` are external library behavior not implemented in
src/; spec §2 ("reads raw bytes from standard input and invokes the parser
to produce a root syntax node; tolerates empty input and parse failure by
yielding an absent tree") and §4.3 make the acquired root absent on empty
input and on a raising parse, and the parse outcome otherwise.
-/
def treeAcquire (source_bytes : List Nat) (parseOutcome : PyRes Node) : Option Node :=
  if source_bytes.isEmpty then none
  else
    match parseOutcome with
    | .ok n => some n
    | .exn => none

/-- An object the grammar entry point may return: `isLanguage` models
`isinstance(obj, Language)`, `objId` is object identity (so "returned
unmodified" is expressible). -/
structure GrammarObj where
  isLanguage : Bool
  objId : Nat
deriving DecidableEq, Repr

/-- Outcomes of the external Python calls `load_language_from_package`
makes, one field per call site. -/
structure LoadEnv where
  /-- does `importlib.import_module(f"tree_sitter_{lang_name}")` succeed? -/
  importOk : Bool
  /-- is `getattr(mod, "language", None)` callable? -/
  hasCallable : Bool
  /-- outcome of calling `lang_fn()` -/
  callResult : PyRes GrammarObj
  /-- outcome of wrapping: `Language(lang_obj)` -/
  wrapResult : GrammarObj → PyRes GrammarObj

/--
`load_language_from_package` (lines 41-61): a failed import re-raises as
`RuntimeError`; a missing/uncallable `language` raises `RuntimeError`; a
raising `lang_fn()` propagates; an object that already is a `Language` is
returned as-is; otherwise `Language(lang_obj)` is attempted and, if that
raises, the raw object is returned unmodified.  Any `.exn` propagates to
`main`, which exits 4.  (`load_language` is a transparent alias of this.)
-/
def load_language_from_package (env : LoadEnv) : PyRes GrammarObj :=
  if !env.importOk then .exn
  else if !env.hasCallable then .exn
  else
    match env.callResult with
    | .exn => .exn
    | .ok lang_obj =>
      if lang_obj.isLanguage then .ok lang_obj
      else
        match env.wrapResult lang_obj with
        | .ok w => .ok w
        | .exn => .ok lang_obj

/-- A constructed parser object (identity only; its behavior is external). -/
structure PParser where
  pid : Nat
deriving DecidableEq, Repr

/-- Outcome of the first construction convention `Parser(lang)`: success, a
`TypeError` (signature mismatch), or any other exception — the source has a
separate `except` clause for each of the last two. -/
inductive FirstTry where
  | ok : PParser → FirstTry
  | typeError : FirstTry
  | otherError : FirstTry
deriving DecidableEq, Repr

/-- Outcomes of the external calls `make_parser_for_language` makes. -/
structure ParserEnv where
  /-- outcome of `Parser(lang)` -/
  withArg : FirstTry
  /-- outcome of `Parser()` -/
  emptyCtor : PyRes PParser
  /-- outcome of `p.set_language(lang)` -/
  setLang : PParser → PyRes Unit

/-- The fallback convention: `p = Parser(); p.set_language(lang); return p`.
An exception from either call propagates (to `main`, which exits 5). -/
def fallbackConstruct (env : ParserEnv) : PyRes PParser :=
  match env.emptyCtor with
  | .exn => .exn
  | .ok p =>
    match env.setLang p with
    | .exn => .exn
    | .ok _ => .ok p

/-- `make_parser_for_language` (lines 68-80): try `Parser(lang)`; on
`TypeError` fall back; on any other exception also fall back (the source
keeps two identical handlers). -/
def make_parser_for_language (env : ParserEnv) : PyRes PParser :=
  match env.withArg with
  | .ok p => .ok p
  | .typeError => fallbackConstruct env
  | .otherError => fallbackConstruct env

def loadErrMsg : List Char := "Error loading language\n".toList

def parserErrMsg : List Char := "Failed to construct parser\n".toList

/--
The whole of `main` after argument parsing: load the language (exit 4 on
any exception), construct the parser (exit 5 on any exception), acquire the
tree, dispatch the command.  The stderr diagnostics in the source
interpolate the exception text (`f"Error loading language: {e}"`); only
their fixed prefixes are modelled.
-/
def runPipeline (lenv : LoadEnv) (penv : ParserEnv) (cmd : Command)
    (source_bytes : List Nat) (parseOutcome : PyRes Node)
    (lookup : Int → Int → Option Node) : RunOut :=
  match load_language_from_package lenv with
  | .exn => ⟨4, none, some loadErrMsg⟩
  | .ok _ =>
    match make_parser_for_language penv with
    | .exn => ⟨5, none, some parserErrMsg⟩
    | .ok _ => runMain cmd (treeAcquire source_bytes parseOutcome) source_bytes lookup

/-! ## Helper lemmas -/

/-- The predicate admitting a node into the `folds` output: both points
present and end row strictly greater than start row (spec: the sole
admission criterion). -/
def foldQual (n : Node) : Bool :=
  match n.start_point, n.end_point with
  | some s, some e => decide (e.1 > s.1)
  | _, _ => false

/- A tree is well formed when every node carries all six tree-sitter
attributes — the shape of every tree the external library actually
produces (spec §3); the `Option` fields only exist for the defensive
guards in the source. -/
mutual
def wellFormed : Node → Bool
  | .mk t nm sp ep sb eb cs =>
    t.isSome && nm.isSome && sp.isSome && ep.isSome && sb.isSome && eb.isSome &&
      wellFormedList cs
def wellFormedList : NodeList → Bool
  | .nil => true
  | .cons c cs => wellFormed c && wellFormedList cs
end

theorem wellFormed_fields {m : Node} (h : wellFormed m = true) :
    m.type.isSome = true ∧ m.is_named.isSome = true ∧ m.start_point.isSome = true ∧
      m.end_point.isSome = true ∧ m.start_byte.isSome = true ∧ m.end_byte.isSome = true := by
  rcases m with ⟨t, nm, sp, ep, sb, eb, cs⟩
  rw [wellFormed] at h
  simp only [Bool.and_eq_true] at h
  exact ⟨h.1.1.1.1.1.1, h.1.1.1.1.1.2, h.1.1.1.1.2, h.1.1.1.2, h.1.1.2, h.1.2⟩

mutual
theorem preorder_wellFormed : ∀ n : Node, wellFormed n = true →
    ∀ m ∈ preorder n, wellFormed m = true
  | .mk t nm sp ep sb eb cs => by
    intro h m hm
    rw [preorder] at hm
    rcases List.mem_cons.mp hm with h1 | h1
    · subst h1; exact h
    · have hcs : wellFormedList cs = true := by
        rw [wellFormed, Bool.and_eq_true] at h; exact h.2
      exact preorderList_wellFormed cs hcs m h1
theorem preorderList_wellFormed : ∀ cs : NodeList, wellFormedList cs = true →
    ∀ m ∈ preorderList cs, wellFormed m = true
  | .nil => by intro _ m hm; rw [preorderList] at hm; cases hm
  | .cons c cs => by
    intro h m hm
    rw [wellFormedList, Bool.and_eq_true] at h
    rw [preorderList] at hm
    rcases List.mem_append.mp hm with h1 | h1
    · exact preorder_wellFormed c h.1 m h1
    · exact preorderList_wellFormed cs h.2 m h1
end

mutual
theorem symVisit_eq_filter : ∀ n : Node, symVisit n = (preorder n).filter symQual
  | .mk t nm sp ep sb eb cs => by
    rw [symVisit, preorder, List.filter_cons, symVisitList_eq_filter cs]
    by_cases h : symQual (Node.mk t nm sp ep sb eb cs) = true <;> simp [h]
theorem symVisitList_eq_filter : ∀ cs : NodeList,
    symVisitList cs = (preorderList cs).filter symQual
  | .nil => rfl
  | .cons c cs => by
    rw [symVisitList, preorderList, List.filter_append, symVisit_eq_filter c,
      symVisitList_eq_filter cs]
end

mutual
theorem foldsVisit_eq_filter : ∀ n : Node, wellFormed n = true →
    foldsVisit n = (preorder n).filter foldQual
  | .mk t nm sp ep sb eb cs => by
    intro h
    rw [wellFormed] at h
    simp only [Bool.and_eq_true] at h
    obtain ⟨s, hs⟩ := Option.isSome_iff_exists.mp h.1.1.1.1.2
    obtain ⟨e, he⟩ := Option.isSome_iff_exists.mp h.1.1.1.2
    have hcs := h.2
    subst hs; subst he
    rw [foldsVisit, preorder, List.filter_cons, foldsVisitList_eq_filter cs hcs]
    by_cases hq : e.1 > s.1 <;>
      simp [foldQual, Node.start_point, Node.end_point, hq]
theorem foldsVisitList_eq_filter : ∀ cs : NodeList, wellFormedList cs = true →
    foldsVisitList cs = (preorderList cs).filter foldQual
  | .nil => by intro _; rfl
  | .cons c cs => by
    intro h
    rw [wellFormedList, Bool.and_eq_true] at h
    rw [foldsVisitList, preorderList, List.filter_append,
      foldsVisit_eq_filter c h.1, foldsVisitList_eq_filter cs h.2]
end

mutual
theorem astFlatten_walk : ∀ n : Node, ∀ src : List Nat,
    astFlatten (walk_node src n) = (preorder n).map (fun m => node_to_dict m src true 120)
  | .mk t nm sp ep sb eb cs => by
    intro src
    rw [walk_node, astFlatten, preorder, List.map_cons, astFlattenList_walk cs src]
theorem astFlattenList_walk : ∀ cs : NodeList, ∀ src : List Nat,
    astFlattenList (walkChildren src cs) =
      (preorderList cs).map (fun m => node_to_dict m src true 120)
  | .nil => by intro src; rfl
  | .cons c cs => by
    intro src
    rw [walkChildren, astFlattenList, preorderList, List.map_append,
      astFlatten_walk c src, astFlattenList_walk cs src]
end

theorem keyLeB_total (a b : Nat × Nat) : keyLeB a b = true ∨ keyLeB b a = true := by
  simp only [keyLeB, Bool.or_eq_true, Bool.and_eq_true, decide_eq_true_eq]
  omega

theorem keyLeB_trans {a b c : Nat × Nat} (h1 : keyLeB a b = true)
    (h2 : keyLeB b c = true) : keyLeB a c = true := by
  simp only [keyLeB, Bool.or_eq_true, Bool.and_eq_true, decide_eq_true_eq] at *
  omega

theorem keyLeB_of_eq {a b : Nat × Nat} (h : a = b) : keyLeB a b = true := by
  subst h
  simp [keyLeB]

instance : IsTotal Node nodeLe := ⟨fun a b => keyLeB_total (skey a) (skey b)⟩

instance : IsTrans Node nodeLe := ⟨fun _ _ _ h1 h2 => keyLeB_trans h1 h2⟩

/-- Stability of `orderedInsert`, phrased through key fibers: inserting `a`
prepends it to the fiber of its own key and leaves every fiber otherwise
unchanged. -/
theorem filter_key_orderedInsert (k : Nat × Nat) (a : Node) (l : List Node) :
    (List.orderedInsert nodeLe a l).filter (fun n => decide (skey n = k)) =
      if skey a = k then a :: l.filter (fun n => decide (skey n = k))
      else l.filter (fun n => decide (skey n = k)) := by
  induction l with
  | nil => by_cases h : skey a = k <;> simp [List.orderedInsert, h]
  | cons b t ih =>
    by_cases hab : nodeLe a b
    · rw [List.orderedInsert_of_le _ _ hab]
      by_cases h : skey a = k <;> simp [List.filter_cons, h]
    · have hne : skey a ≠ skey b := fun he => hab (keyLeB_of_eq he)
      have : List.orderedInsert nodeLe a (b :: t) = b :: List.orderedInsert nodeLe a t := by
        simp [List.orderedInsert, hab]
      rw [this, List.filter_cons, List.filter_cons]
      by_cases hb : skey b = k
      · have ha : ¬ skey a = k := fun h' => hne (h'.trans hb.symm)
        simp [hb, ha, ih, List.filter_cons]
      · by_cases ha : skey a = k <;> simp [hb, ha, ih, List.filter_cons]

/-- Stability of the stable sort, phrased through key fibers: sorting
permutes nothing within a fiber, so records with equal
`(start_row, start_column)` keep their pre-sort (pre-order) relative
order. -/
theorem filter_key_insertionSort (k : Nat × Nat) (l : List Node) :
    (List.insertionSort nodeLe l).filter (fun n => decide (skey n = k)) =
      l.filter (fun n => decide (skey n = k)) := by
  induction l with
  | nil => rfl
  | cons a t ih =>
    rw [List.insertionSort, filter_key_orderedInsert, List.filter_cons, ih]
    by_cases h : skey a = k <;> simp [h]

theorem symQual_type {n : Node} (h : symQual n = true) :
    ∃ ty, n.type = some ty ∧ DEFAULT_SYMBOL_NODE_TYPES.contains ty = true := by
  simp only [symQual] at h
  rcases ht : n.type with _ | ty <;> rw [ht] at h
  · cases h
  · exact ⟨ty, rfl, h⟩

/-- On a well-formed tree the key computation of the symbols sort cannot
raise, so `collect_symbols` returns the stable sort of the pre-order
collection. -/
theorem collect_symbols_of_wellFormed (root : Node) (h : wellFormed root = true) :
    collect_symbols root = some (List.insertionSort nodeLe (symVisit root)) := by
  have hall : (symVisit root).all (fun n => (n.start_point).isSome) = true := by
    rw [List.all_eq_true]
    intro n hn
    rw [symVisit_eq_filter root] at hn
    have hpre := (List.mem_filter.mp hn).1
    exact (wellFormed_fields (preorder_wellFormed root h n hpre)).2.2.1
  simp [collect_symbols, hall]

/-! ## Claims -/

/--
C1: For every parsed tree, the `folds` command outputs exactly the nodes
(named or unnamed) whose end row is strictly greater than their start row —
a subset of the `ast` command's node set (the pre-order node list, which is
exactly what the AST dumper renders) restricted to that predicate — and the
output list is sorted ascending by `(start_row, start_column)`.  A parsed
tree is one whose nodes all carry their tree-sitter attributes (spec §3);
trees with missing attributes are the subject of C7.
-/
theorem folds_exact_sorted (root : Node) (src : List Nat)
    (h : wellFormed root = true) :
    List.Perm (collect_folds root) ((preorder root).filter foldQual) ∧
    List.Sorted nodeLe (collect_folds root) ∧
    (∀ m ∈ collect_folds root, m ∈ preorder root ∧ foldQual m = true) ∧
    astFlatten (walk_node src root) =
      (preorder root).map (fun m => node_to_dict m src true 120) := by
  have hperm : List.Perm (collect_folds root) ((preorder root).filter foldQual) := by
    rw [collect_folds, foldsVisit_eq_filter root h]
    exact List.perm_insertionSort nodeLe _
  refine ⟨hperm, List.sorted_insertionSort nodeLe _, ?_, astFlatten_walk root src⟩
  intro m hm
  have hmf := hperm.mem_iff.mp hm
  exact ⟨(List.mem_filter.mp hmf).1, (List.mem_filter.mp hmf).2⟩

def wIdent : Node :=
  .mk (some "identifier") (some true) (some (0, 4)) (some (0, 7)) (some 4) (some 7) .nil

def wFunc : Node :=
  .mk (some "function_definition") (some true) (some (0, 0)) (some (1, 8)) (some 0)
    (some 19) (.cons wIdent .nil)

def wRoot : Node :=
  .mk (some "module") (some true) (some (0, 0)) (some (2, 0)) (some 0) (some 20)
    (.cons wFunc .nil)

/-- `def foo():\n    pass\n` as bytes. -/
def wSrc : List Nat :=
  [100, 101, 102, 32, 102, 111, 111, 40, 41, 58, 10, 32, 32, 32, 32, 112, 97, 115, 115, 10]

/-- Witness for C1 at a concrete two-line function tree. -/
theorem folds_exact_sorted_witness :
    wellFormed wRoot = true ∧
    (List.Perm (collect_folds wRoot) ((preorder wRoot).filter foldQual) ∧
     List.Sorted nodeLe (collect_folds wRoot) ∧
     (∀ m ∈ collect_folds wRoot, m ∈ preorder wRoot ∧ foldQual m = true) ∧
     astFlatten (walk_node wSrc wRoot) =
       (preorder wRoot).map (fun m => node_to_dict m wSrc true 120)) :=
  ⟨rfl, folds_exact_sorted wRoot wSrc rfl⟩

/--
C2: For every parsed tree, the `symbols` command collects exactly the nodes
whose type is a member of the fixed built-in allow-list (exact string
match, collected in pre-order), and the final output is sorted ascending by
`(start_row, start_column)` with every record's type drawn from that
allow-list.
-/
theorem symbols_allowlist_sorted (root : Node) (src : List Nat)
    (h : wellFormed root = true) :
    ∃ out, collect_symbols root = some out ∧
      symVisit root = (preorder root).filter symQual ∧
      List.Perm out ((preorder root).filter symQual) ∧
      List.Sorted nodeLe out ∧
      (∀ n ∈ out, ∃ ty, n.type = some ty ∧ DEFAULT_SYMBOL_NODE_TYPES.contains ty = true) ∧
      (∀ r ∈ out.map (symRecOf src), ∃ ty, r.type = some ty ∧
        DEFAULT_SYMBOL_NODE_TYPES.contains ty = true) := by
  refine ⟨List.insertionSort nodeLe (symVisit root),
    collect_symbols_of_wellFormed root h, symVisit_eq_filter root, ?_,
    List.sorted_insertionSort nodeLe _, ?_, ?_⟩
  · rw [symVisit_eq_filter root]
    exact List.perm_insertionSort nodeLe _
  · intro n hn
    have hmem := (List.perm_insertionSort nodeLe (symVisit root)).mem_iff.mp hn
    rw [symVisit_eq_filter root] at hmem
    exact symQual_type (List.mem_filter.mp hmem).2
  · intro r hr
    obtain ⟨n, hn, hrn⟩ := List.mem_map.mp hr
    have hmem := (List.perm_insertionSort nodeLe (symVisit root)).mem_iff.mp hn
    rw [symVisit_eq_filter root] at hmem
    obtain ⟨ty, hty, hc⟩ := symQual_type (List.mem_filter.mp hmem).2
    exact ⟨ty, by rw [← hrn]; exact hty, hc⟩

/-- Witness for C2 at the same concrete tree. -/
theorem symbols_allowlist_sorted_witness :
    wellFormed wRoot = true ∧
    (∃ out, collect_symbols wRoot = some out ∧
      symVisit wRoot = (preorder wRoot).filter symQual ∧
      List.Perm out ((preorder wRoot).filter symQual) ∧
      List.Sorted nodeLe out ∧
      (∀ n ∈ out, ∃ ty, n.type = some ty ∧ DEFAULT_SYMBOL_NODE_TYPES.contains ty = true) ∧
      (∀ r ∈ out.map (symRecOf wSrc), ∃ ty, r.type = some ty ∧
        DEFAULT_SYMBOL_NODE_TYPES.contains ty = true)) :=
  ⟨rfl, symbols_allowlist_sorted wRoot wSrc rfl⟩

/--
C10: In both the `symbols` and `folds` outputs, records with identical
`(start_row, start_column)` keys appear in pre-order visitation order
(`symVisit` / `foldsVisit` are the pre-order collections, so a qualifying
ancestor precedes its qualifying descendants there), because the final sort
is stable: its output agrees with the pre-order-collected list on every key
fiber.
-/
theorem equal_key_records_preorder (root : Node) (h : wellFormed root = true) :
    collect_symbols root = some (List.insertionSort nodeLe (symVisit root)) ∧
    (∀ k, (List.insertionSort nodeLe (symVisit root)).filter
        (fun n => decide (skey n = k)) =
      (symVisit root).filter (fun n => decide (skey n = k))) ∧
    (∀ k, (collect_folds root).filter (fun n => decide (skey n = k)) =
      (foldsVisit root).filter (fun n => decide (skey n = k))) :=
  ⟨collect_symbols_of_wellFormed root h,
   fun k => filter_key_insertionSort k _,
   fun k => filter_key_insertionSort k _⟩

/-- Witness for C10 at the concrete tree (module and function share start
row 0; module at column 0 precedes the function). -/
theorem equal_key_records_preorder_witness :
    wellFormed wRoot = true ∧
    (collect_symbols wRoot = some (List.insertionSort nodeLe (symVisit wRoot)) ∧
     (∀ k, (List.insertionSort nodeLe (symVisit wRoot)).filter
         (fun n => decide (skey n = k)) =
       (symVisit wRoot).filter (fun n => decide (skey n = k))) ∧
     (∀ k, (collect_folds wRoot).filter (fun n => decide (skey n = k)) =
       (foldsVisit wRoot).filter (fun n => decide (skey n = k)))) :=
  ⟨rfl, equal_key_records_preorder wRoot rfl⟩

theorem truncateText_le (t : List Char) : (truncateText 120 t).length ≤ 120 := by
  rw [truncateText]
  split
  · simp only [List.length_append, List.length_take]
    have : ("...".toList).length = 3 := rfl
    omega
  · omega

theorem truncateText_long (t : List Char) (h : 120 < t.length) :
    (truncateText 120 t).length = 120 ∧ "...".toList <:+ truncateText 120 t := by
  rw [truncateText, if_pos h]
  constructor
  · simp only [List.length_append, List.length_take]
    have : ("...".toList).length = 3 := rfl
    omega
  · exact List.suffix_append _ _

theorem truncateText_short (t : List Char) (h : t.length ≤ 120) :
    truncateText 120 t = t := by
  rw [truncateText, if_neg (by omega)]

/--
C5: For every node emitted by the AST dumper, its `text` field is the
source-buffer slice from `start_byte` to `end_byte` (the `getattr`-defaulted
offsets) decoded as UTF-8 with invalid sequences replaced, with all runs of
whitespace collapsed to single spaces, and, whenever the normalized text
exceeds 120 characters, truncated so the emitted string is at most 120
characters (in fact exactly 120) and ends with the trailing `...` marker;
otherwise it is the normalized text unchanged.
-/
theorem ast_text_pipeline (n : Node) (src : List Nat) :
    ∃ t, (node_to_dict n src true 120).text = some t ∧
      t = truncateText 120 (normalizeWs (decodeUtf8Replace
          (pySlice src (n.start_byte.getD 0) (n.end_byte.getD 0)))) ∧
      t.length ≤ 120 ∧
      (120 < (normalizeWs (decodeUtf8Replace
          (pySlice src (n.start_byte.getD 0) (n.end_byte.getD 0)))).length →
        t.length = 120 ∧ "...".toList <:+ t) ∧
      ((normalizeWs (decodeUtf8Replace
          (pySlice src (n.start_byte.getD 0) (n.end_byte.getD 0)))).length ≤ 120 →
        t = normalizeWs (decodeUtf8Replace
          (pySlice src (n.start_byte.getD 0) (n.end_byte.getD 0)))) := by
  refine ⟨truncateText 120 (normalizeWs (decodeUtf8Replace
    (pySlice src (n.start_byte.getD 0) (n.end_byte.getD 0)))), rfl, rfl,
    truncateText_le _, fun h => truncateText_long _ h, fun h => truncateText_short _ h⟩

/-- A one-line, 130-byte buffer of `a`s and a node spanning all of it. -/
def longSrc : List Nat := List.replicate 130 97

def longNode : Node :=
  .mk (some "module") (some true) (some (0, 0)) (some (0, 130)) (some 0) (some 130) .nil

set_option maxRecDepth 100000 in
/-- Witness for C5: on the 130-byte buffer the emitted text is exactly 120
characters and carries the ellipsis marker. -/
theorem ast_text_pipeline_witness :
    ∃ t, (node_to_dict longNode longSrc true 120).text = some t ∧
      t.length = 120 ∧ "...".toList <:+ t := by
  obtain ⟨t, h1, -, -, h3, -⟩ := ast_text_pipeline longNode longSrc
  have hlong : 120 < (normalizeWs (decodeUtf8Replace
      (pySlice longSrc (longNode.start_byte.getD 0) (longNode.end_byte.getD 0)))).length := by
    decide
  exact ⟨t, h1, (h3 hlong).1, (h3 hlong).2⟩

/--
C4: For every command (`ast`, `node_at` with valid integer arguments,
`symbols`, `folds`), running with empty standard input yields that
command's defined empty JSON shape (`{}` for `ast` and `node_at`, `[]` for
`symbols` and `folds`) and exit code 0, never a non-zero exit — for any
parse outcome and any point-lookup behavior.  (The acquired root for empty
input is the spec-modelled `treeAcquire`, which yields an absent tree.)
-/
theorem empty_stdin_empty_shapes (po : PyRes Node) (lookup : Int → Int → Option Node)
    (a0 a1 : List Char) (r c : Int) (h0 : pyInt a0 = some r) (h1 : pyInt a1 = some c) :
    runMain .ast (treeAcquire [] po) [] lookup = ⟨0, some .emptyObj, none⟩ ∧
    runMain (.node_at [a0, a1]) (treeAcquire [] po) [] lookup = ⟨0, some .emptyObj, none⟩ ∧
    runMain .symbols (treeAcquire [] po) [] lookup = ⟨0, some .emptyArr, none⟩ ∧
    runMain .folds (treeAcquire [] po) [] lookup = ⟨0, some .emptyArr, none⟩ := by
  have hroot : treeAcquire [] po = none := rfl
  rw [hroot]
  exact ⟨rfl, by simp [runMain, h0, h1], rfl, rfl⟩

/-- Witness for C4 with arguments `0` and `1` and a raising parse. -/
theorem empty_stdin_empty_shapes_witness :
    pyInt "0".toList = some 0 ∧ pyInt "1".toList = some 1 ∧
    (runMain .ast (treeAcquire [] (PyRes.exn : PyRes Node)) [] (fun _ _ => none) =
        ⟨0, some .emptyObj, none⟩ ∧
     runMain (.node_at ["0".toList, "1".toList]) (treeAcquire [] (PyRes.exn : PyRes Node))
        [] (fun _ _ => none) = ⟨0, some .emptyObj, none⟩ ∧
     runMain .symbols (treeAcquire [] (PyRes.exn : PyRes Node)) [] (fun _ _ => none) =
        ⟨0, some .emptyArr, none⟩ ∧
     runMain .folds (treeAcquire [] (PyRes.exn : PyRes Node)) [] (fun _ _ => none) =
        ⟨0, some .emptyArr, none⟩) :=
  ⟨rfl, rfl, empty_stdin_empty_shapes PyRes.exn (fun _ _ => none) "0".toList "1".toList
    0 1 rfl rfl⟩

/--
C6: The `node_at` command exits with code 7 when given fewer than two
positional arguments and with code 8 when either argument is not an
integer, in both cases writing a one-line message to standard error and
producing no JSON on standard output.
-/
theorem node_at_arg_errors (root : Option Node) (src : List Nat)
    (lookup : Int → Int → Option Node) (argv : List (List Char)) :
    (argv.length < 2 →
      runMain (.node_at argv) root src lookup = ⟨7, none, some nodeAtUsageMsg⟩ ∧
      oneLine nodeAtUsageMsg = true) ∧
    (∀ a0 a1 rest, argv = a0 :: a1 :: rest → (pyInt a0 = none ∨ pyInt a1 = none) →
      runMain (.node_at argv) root src lookup = ⟨8, none, some nodeAtInvalidMsg⟩ ∧
      oneLine nodeAtInvalidMsg = true) := by
  constructor
  · intro hlen
    rcases argv with _ | ⟨a0, _ | ⟨a1, rest⟩⟩
    · exact ⟨rfl, rfl⟩
    · exact ⟨rfl, rfl⟩
    · simp [List.length_cons] at hlen; omega
  · rintro a0 a1 rest rfl hbad
    refine ⟨?_, rfl⟩
    rcases h0 : pyInt a0 with _ | r0
    · simp [runMain, h0]
    · rcases hbad with hb | hb
      · rw [h0] at hb; cases hb
      · simp [runMain, h0, hb]

/-- Witness for C6: one argument gives exit 7; two non-integer arguments
give exit 8. -/
theorem node_at_arg_errors_witness :
    runMain (.node_at ["0".toList]) none [] (fun _ _ => none) =
      ⟨7, none, some nodeAtUsageMsg⟩ ∧
    runMain (.node_at ["a".toList, "b".toList]) none [] (fun _ _ => none) =
      ⟨8, none, some nodeAtInvalidMsg⟩ :=
  ⟨((node_at_arg_errors none [] (fun _ _ => none) ["0".toList]).1 (by decide)).1,
   ((node_at_arg_errors none [] (fun _ _ => none) ["a".toList, "b".toList]).2
     "a".toList "b".toList [] rfl (Or.inl rfl)).1⟩

/--
C3 (amended): For every qualifying symbol node, its `name` field is the
whitespace-normalized text of the first direct child, in child order, whose
type contains the substring "name" or "identifier" AND whose text
extraction succeeds; it is null when no matching child exists or when
extraction fails for every matching child.  (The claim's "first match wins
… null when extraction fails" is false: on an extraction failure the loop
keeps scanning later children — see the counterexample.)
-/
theorem symbol_name_first_successful (src : List Nat) (cs : List Node) :
    firstName src cs =
      ((cs.filter (fun c => isNameChild c && (extractChildText src c).isSome)).head?).bind
        (extractChildText src) := by
  induction cs with
  | nil => rfl
  | cons c t ih =>
    rw [firstName, List.filter_cons]
    by_cases hm : isNameChild c = true
    · rcases he : extractChildText src c with _ | s
      · simp [hm, he, ih]
      · simp [hm, he]
    · simp only [Bool.not_eq_true] at hm
      simp [hm, ih]

/-- The buffer `abc`. -/
def cSrc : List Nat := [97, 98, 99]

/-- A first matching child whose `start_byte` attribute is missing, so its
text extraction raises. -/
def cChildNoBytes : Node :=
  .mk (some "identifier") (some true) (some (0, 0)) (some (0, 3)) none (some 3) .nil

/-- A second matching child whose extraction succeeds with text `abc`. -/
def cChildOk : Node :=
  .mk (some "identifier") (some true) (some (0, 0)) (some (0, 3)) (some 0) (some 3) .nil

def cFunc : Node :=
  .mk (some "function_definition") (some true) (some (0, 0)) (some (1, 0)) (some 0) (some 3)
    (.cons cChildNoBytes (.cons cChildOk .nil))

/--
C3 counterexample: the first direct child whose type matches is
`cChildNoBytes` and its text extraction fails, so the claim says `name`
must be null; the code instead scans on and extracts `abc` from the second
matching child — `name` is not null.
-/
theorem name_after_failed_first_match :
    isNameChild cChildNoBytes = true ∧
    extractChildText cSrc cChildNoBytes = none ∧
    (symRecOf cSrc cFunc).name = some "abc".toList ∧
    (symRecOf cSrc cFunc).name ≠ none := by
  refine ⟨rfl, rfl, rfl, ?_⟩
  decide

/--
C7 (amended): For every node rendered through `node_to_dict` (the `ast` and
`node_at` views and the symbol records), missing position or byte fields
default to zero in the output and the node is still rendered — the AST
dumper renders every pre-order node unconditionally.  However, the `folds`
command drops a node whose position fields are missing together with its
entire subtree, and in the `symbols` command a qualifying node with a
missing `start_point` makes the final sort's key computation fail, so the
command errors instead of rendering a zero-defaulted record.
-/
theorem missing_fields_soft_or_dropped (n : Node) (src : List Nat) (it : Bool) (mt : Nat) :
    ((n.start_point = none ∨ n.end_point = none) →
      (node_to_dict n src it mt).start_point = (0, 0) ∧
      (node_to_dict n src it mt).end_point = (0, 0)) ∧
    (n.start_byte = none → (node_to_dict n src it mt).start_byte = 0) ∧
    (n.end_byte = none → (node_to_dict n src it mt).end_byte = 0) ∧
    astFlatten (walk_node src n) = (preorder n).map (fun m => node_to_dict m src true 120) ∧
    ((n.start_point = none ∨ n.end_point = none) → foldsVisit n = []) ∧
    (∀ root, n ∈ symVisit root → n.start_point = none → collect_symbols root = none) := by
  rcases n with ⟨t, nm, sp, ep, sb, eb, cs⟩
  refine ⟨?_, ?_, ?_, astFlatten_walk _ src, ?_, ?_⟩
  · intro h
    simp only [Node.start_point, Node.end_point] at h
    rcases sp with _ | s
    · rcases ep with _ | e <;> exact ⟨rfl, rfl⟩
    · rcases ep with _ | e
      · exact ⟨rfl, rfl⟩
      · rcases h with h | h <;> cases h
  · intro h
    simp only [Node.start_byte] at h
    subst h
    rfl
  · intro h
    simp only [Node.end_byte] at h
    subst h
    rfl
  · intro h
    simp only [Node.start_point, Node.end_point] at h
    rcases sp with _ | s
    · rcases ep with _ | e <;> rfl
    · rcases ep with _ | e
      · rfl
      · rcases h with h | h <;> cases h
  · intro root hmem hnone
    simp only [Node.start_point] at hnone
    subst hnone
    have hfalse : ¬ ((symVisit root).all (fun m => (m.start_point).isSome) = true) := by
      intro hall
      have h2 := List.all_eq_true.mp hall _ hmem
      simp [Node.start_point] at h2
    unfold collect_symbols
    rw [if_neg hfalse]

/-- A qualifying symbol node with every optional attribute missing except
the end point and bytes absent too. -/
def c7W : Node :=
  .mk (some "function_definition") (some true) none none none none .nil

/-- Witness for C7's amended statement at a concrete malformed node. -/
theorem missing_fields_soft_or_dropped_witness :
    (node_to_dict c7W [] true 120).start_point = (0, 0) ∧
    (node_to_dict c7W [] true 120).start_byte = 0 ∧
    (node_to_dict c7W [] true 120).end_byte = 0 ∧
    foldsVisit c7W = [] ∧
    collect_symbols c7W = none := by
  have h := missing_fields_soft_or_dropped c7W [] true 120
  exact ⟨(h.1 (Or.inl rfl)).1, h.2.1 rfl, h.2.2.1 rfl, h.2.2.2.2.1 (Or.inl rfl),
    h.2.2.2.2.2 c7W (List.mem_singleton_self c7W) rfl⟩

/-- A qualifying symbol node whose `start_point` attribute is missing. -/
def c7Sym : Node :=
  .mk (some "function_definition") (some true) none (some (1, 0)) (some 0) (some 0) .nil

/--
C7 counterexample: a qualifying symbol node missing its position fields.
The claim says the fields default to zero and the record is still rendered;
instead the sort's key computation raises, the invocation dies with exit
code 1 and NO record is rendered (stdout stays empty).
-/
theorem missing_point_symbols_crash :
    symQual c7Sym = true ∧ c7Sym.start_point = none ∧
    collect_symbols c7Sym = none ∧
    runMain .symbols (some c7Sym) [] (fun _ _ => none) = ⟨1, none, none⟩ :=
  ⟨rfl, rfl, rfl, rfl⟩

/-- The command dispatch itself can only exit 0 (success), 1 (uncaught
exception in the symbols sort), 7 or 8 (node_at argument errors) — never 4
or 5. -/
theorem runMain_exit_cases (cmd : Command) (root : Option Node) (src : List Nat)
    (lookup : Int → Int → Option Node) :
    (runMain cmd root src lookup).exitCode = 0 ∨ (runMain cmd root src lookup).exitCode = 1 ∨
      (runMain cmd root src lookup).exitCode = 7 ∨
      (runMain cmd root src lookup).exitCode = 8 := by
  rcases cmd with _ | argv | _ | _
  · rcases root with _ | r <;> simp [runMain]
  · rcases argv with _ | ⟨a0, _ | ⟨a1, rest⟩⟩
    · simp [runMain]
    · simp [runMain]
    · rcases h0 : pyInt a0 with _ | r0
      · simp [runMain, h0]
      · rcases h1 : pyInt a1 with _ | r1
        · simp [runMain, h0, h1]
        · rcases root with _ | r
          · simp [runMain, h0, h1]
          · rcases hl : lookup r0 r1 with _ | nd <;> simp [runMain, h0, h1, hl]
  · rcases root with _ | r
    · simp [runMain]
    · rcases hc : collect_symbols r with _ | out <;> simp [runMain, hc]
  · rcases root with _ | r <;> simp [runMain]

/--
C8: Parser construction fails (exit code 5) only if both construction
conventions fail: the builder first attempts `Parser(lang)`, and on ANY
failure of that attempt — a `TypeError` (signature mismatch) or any other
exception — falls back to `Parser()` followed by `set_language`, rather
than propagating the first failure.  Exit code 5 occurs exactly when
language loading succeeded and both conventions failed.
-/
theorem parser_construction_both_conventions (penv : ParserEnv) (lenv : LoadEnv)
    (cmd : Command) (src : List Nat) (po : PyRes Node)
    (lookup : Int → Int → Option Node) :
    (make_parser_for_language penv = .exn ↔
      ((penv.withArg = .typeError ∨ penv.withArg = .otherError) ∧
        fallbackConstruct penv = .exn)) ∧
    (penv.withArg = .typeError → make_parser_for_language penv = fallbackConstruct penv) ∧
    (penv.withArg = .otherError → make_parser_for_language penv = fallbackConstruct penv) ∧
    ((runPipeline lenv penv cmd src po lookup).exitCode = 5 ↔
      (load_language_from_package lenv ≠ .exn ∧ make_parser_for_language penv = .exn)) := by
  refine ⟨?_, ?_, ?_, ?_⟩
  · rcases hw : penv.withArg with p | _ | _ <;> simp [make_parser_for_language, hw]
  · intro hw; simp [make_parser_for_language, hw]
  · intro hw; simp [make_parser_for_language, hw]
  · rcases hload : load_language_from_package lenv with g | _
    · rcases hmk : make_parser_for_language penv with p | _
      · have hrm := runMain_exit_cases cmd (treeAcquire src po) src lookup
        simp only [runPipeline, hload, hmk]
        constructor
        · intro h5; omega
        · intro hc; cases hc.2
      · simp [runPipeline, hload, hmk]
    · simp [runPipeline, hload]

/-- A parser environment where `Parser(lang)` raises `TypeError` and the
fallback convention succeeds. -/
def penvW : ParserEnv := ⟨.typeError, .ok ⟨0⟩, fun _ => .ok ()⟩

/-- A load environment that succeeds by returning a raw (non-`Language`)
object whose wrap attempt raises. -/
def lenvW : LoadEnv := ⟨true, true, .ok ⟨false, 5⟩, fun _ => .exn⟩

/-- Witness for C8: with a raising first convention the builder returns the
fallback's parser, and the pipeline does not exit 5. -/
theorem parser_construction_witness :
    make_parser_for_language penvW = fallbackConstruct penvW ∧
    make_parser_for_language penvW = .ok ⟨0⟩ ∧
    ¬ ((runPipeline lenvW penvW .folds [] .exn (fun _ _ => none)).exitCode = 5) := by
  have h := parser_construction_both_conventions penvW lenvW .folds [] .exn
    (fun _ _ => none)
  refine ⟨h.2.1 rfl, rfl, ?_⟩
  intro h5
  exact absurd (h.2.2.2.mp h5).2 (by decide)

/--
C9: Language resolution fails (exit code 4) exactly when the module for the
language name cannot be imported, when the module exposes no callable
`language` entry point, or when invoking that entry point raises;
otherwise, an object already satisfying the grammar interface is returned
as-is, a raw handle is wrapped through the grammar constructor, and if
wrapping raises the raw object is returned unmodified.
-/
theorem language_load_exactly (lenv : LoadEnv) (penv : ParserEnv) (cmd : Command)
    (src : List Nat) (po : PyRes Node) (lookup : Int → Int → Option Node) :
    (load_language_from_package lenv = .exn ↔
      (lenv.importOk = false ∨ lenv.hasCallable = false ∨ lenv.callResult = .exn)) ∧
    (∀ obj, lenv.callResult = .ok obj → lenv.importOk = true → lenv.hasCallable = true →
      ((obj.isLanguage = true → load_language_from_package lenv = .ok obj) ∧
       (∀ w, obj.isLanguage = false → lenv.wrapResult obj = .ok w →
         load_language_from_package lenv = .ok w) ∧
       (obj.isLanguage = false → lenv.wrapResult obj = .exn →
         load_language_from_package lenv = .ok obj))) ∧
    ((runPipeline lenv penv cmd src po lookup).exitCode = 4 ↔
      load_language_from_package lenv = .exn) := by
  refine ⟨?_, ?_, ?_⟩
  · cases hi : lenv.importOk
    · simp [load_language_from_package, hi]
    · cases hc : lenv.hasCallable
      · simp [load_language_from_package, hi, hc]
      · rcases hcall : lenv.callResult with obj | _
        · rcases hwrap : lenv.wrapResult obj with w | _ <;>
            cases hl : obj.isLanguage <;>
            simp [load_language_from_package, hi, hc, hcall, hwrap, hl]
        · simp [load_language_from_package, hi, hc, hcall]
  · intro obj hcall hi hc
    refine ⟨?_, ?_, ?_⟩
    · intro hl; simp [load_language_from_package, hi, hc, hcall, hl]
    · intro w hl hwrap; simp [load_language_from_package, hi, hc, hcall, hl, hwrap]
    · intro hl hwrap; simp [load_language_from_package, hi, hc, hcall, hl, hwrap]
  · rcases hload : load_language_from_package lenv with g | _
    · rcases hmk : make_parser_for_language penv with p | _
      · have hrm := runMain_exit_cases cmd (treeAcquire src po) src lookup
        simp only [runPipeline, hload, hmk]
        constructor
        · intro h4; omega
        · intro hc; cases hc
      · simp [runPipeline, hload, hmk]
    · simp [runPipeline, hload]

/-- Witness for C9: the raw-object environment loads successfully (the raw
handle is returned unmodified after the wrap raises) and the pipeline does
not exit 4. -/
theorem language_load_witness :
    load_language_from_package lenvW = .ok ⟨false, 5⟩ ∧
    ¬ ((runPipeline lenvW penvW .folds [] .exn (fun _ _ => none)).exitCode = 4) := by
  have h := language_load_exactly lenvW penvW .folds [] .exn (fun _ _ => none)
  refine ⟨(h.2.1 ⟨false, 5⟩ rfl rfl rfl).2.2 rfl rfl, ?_⟩
  intro h4
  exact absurd (h.2.2.mp h4) (by decide)

end TsHelper
